import Mathlib

/-!
Shallow embedding of the quick-findr maintenance scripts.

Each Python script is a straight-line read → transform → write procedure.
We model a text file either as its character content (`List Char`) or as the
line list produced by `readlines` / `split` (`List (List Char)`), and each
script as a pure function from the content it reads to the content it writes
(plus, where relevant, the exit code it produces and whether the write step
is reached at all).

Sources embedded here:
  * `analyze_and_fix.py`   — per-line brace auditor and fixer
  * `fix_complete.py`      — whole-file brace counter and fixer
  * `clean_recent.py`      — JSON config pruner
  * `fix_favorites.py`     — regex-based section replacer
  * `fix_final.py`         — regex-based full-section rebuilder
  * `rebuild_favorites_section.py` — brace-depth-based section rebuilder
-/

namespace QuickFindr

/-- The opening curly brace character (code point 123). -/
def openBrace : Char := Char.ofNat 123

/-- The closing curly brace character (code point 125). -/
def closeBrace : Char := Char.ofNat 125

/-- The newline character. -/
def newlineChar : Char := Char.ofNat 10

/-- Python `s.count(c)` for a single character `c`. -/
def countc (c : Char) (l : List Char) : Nat := l.count c

/-- Net brace contribution of one line:
`line.count('\x7b') - line.count('\x7d')` as an integer. -/
def netBrace (l : List Char) : Int :=
  (countc openBrace l : Int) - (countc closeBrace l : Int)

/-- The final `brace_level` computed by `analyze_and_fix.py`: the sum over all
lines of the per-line net brace count. -/
def braceLevelLines (lines : List (List Char)) : Int := (lines.map netBrace).sum

/-- Total count of a character across a list of lines. -/
def sumCount (c : Char) (lines : List (List Char)) : Nat :=
  (lines.map (countc c)).sum

/-- The whitespace characters removed by Python `str.strip()` with no
argument (ASCII whitespace, the C1 space-like controls, and the Unicode
space separators). -/
def isPySpace (c : Char) : Bool :=
  c == Char.ofNat 9 || c == Char.ofNat 10 || c == Char.ofNat 11 ||
  c == Char.ofNat 12 || c == Char.ofNat 13 || c == Char.ofNat 28 ||
  c == Char.ofNat 29 || c == Char.ofNat 30 || c == Char.ofNat 31 ||
  c == Char.ofNat 32 || c == Char.ofNat 133 || c == Char.ofNat 160 ||
  c == Char.ofNat 0x1680 ||
  (Char.ofNat 0x2000 ≤ c && c ≤ Char.ofNat 0x200a) ||
  c == Char.ofNat 0x2028 || c == Char.ofNat 0x2029 ||
  c == Char.ofNat 0x202f || c == Char.ofNat 0x205f || c == Char.ofNat 0x3000

/-- Python `line.strip()`: drop leading whitespace, then drop trailing
whitespace (implemented by reversing). -/
def stripChars (l : List Char) : List Char :=
  ((l.dropWhile isPySpace).reverse.dropWhile isPySpace).reverse

/-- The test `line.strip() == '\x7d'` used by both brace fixers to select
deletable lines. -/
def isLoneClose (l : List Char) : Bool := stripChars l == [closeBrace]

/-- One pass of the inner deletion loop of both brace fixers:
`for j in range(len(lines)-1, -1, -1): if p(lines[j]): lines.pop(j); break`.
It removes the last element satisfying `p`, or leaves the list unchanged when
no element satisfies `p`. -/
def popLast (p : α → Bool) : List α → List α
  | [] => []
  | x :: xs =>
    if xs.any p then x :: popLast p xs
    else if p x then xs else x :: xs

/-- The outer deletion loop of both brace fixers: `popLast` applied `n`
times, one application per iteration of `for _ in range(n)`. -/
def iterPopLast (p : α → Bool) : Nat → List α → List α
  | 0, l => l
  | n + 1, l => iterPopLast p n (popLast p l)

/-- Remove the first `n` elements satisfying `p`, keeping everything else in
order. -/
def removeFirstSat (p : α → Bool) : Nat → List α → List α
  | 0, l => l
  | _ + 1, [] => []
  | n + 1, x :: xs =>
    if p x then removeFirstSat p n xs else x :: removeFirstSat p (n + 1) xs

/-- Specification-side description of the deletion loop (used to state the
frame claim about surplus-brace removal): remove the last `n` elements
satisfying `p`, keeping every other element in its original order. -/
def removeLastSat (p : α → Bool) (n : Nat) (l : List α) : List α :=
  (removeFirstSat p n l.reverse).reverse

/-- The string `'\x7d\n' * n` appended by the brace fixers, as a character
list. -/
def closeNl : Nat → List Char
  | 0 => []
  | n + 1 => closeBrace :: newlineChar :: closeNl n

/-- The whole transformation of `analyze_and_fix.py` on the line list read by
`readlines`: when the final `brace_level` is zero nothing is written (the
content is unchanged); when it is negative, `-brace_level` iterations each
delete the last line whose stripped content is `'\x7d'`; when it is positive,
the single string `'\x7d\n' * brace_level` is appended as one element.
The written file is the concatenation of the resulting lines. -/
def analyzeAndFix (lines : List (List Char)) : List (List Char) :=
  if braceLevelLines lines = 0 then lines
  else if braceLevelLines lines < 0 then
    iterPopLast isLoneClose (-braceLevelLines lines).toNat lines
  else lines ++ [closeNl (braceLevelLines lines).toNat]

/-- The error-reporting loop of `analyze_and_fix.py`: starting from depth `d`
at 1-based line index `i`, record the index of every line after which the
running depth is negative. -/
def auditAux : Int → Nat → List (List Char) → List Nat
  | _, _, [] => []
  | d, i, l :: ls =>
    if d + netBrace l < 0 then i :: auditAux (d + netBrace l) (i + 1) ls
    else auditAux (d + netBrace l) (i + 1) ls

/-- The 1-based line indices for which `analyze_and_fix.py` appends an entry
to its `errors` list. -/
def auditErrors (lines : List (List Char)) : List Nat := auditAux 0 1 lines

/-- Python `content.split('\n')`. -/
def splitNl : List Char → List (List Char)
  | [] => [[]]
  | c :: rest =>
    if c == newlineChar then [] :: splitNl rest
    else
      match splitNl rest with
      | [] => [[c]]
      | l :: ls => (c :: l) :: ls

/-- Python `'\n'.join(lines)`. -/
def joinNl : List (List Char) → List Char
  | [] => []
  | [l] => l
  | l :: ls => l ++ newlineChar :: joinNl ls

/-- The whole transformation of `fix_complete.py` on the file content: count
the braces globally; with surplus closers, split into lines, delete the last
lone-closer lines, and rejoin; with missing closers, append
`'\n' + '\x7d\n' * diff`; otherwise write the content back unchanged. -/
def fixComplete (content : List Char) : List Char :=
  if countc closeBrace content > countc openBrace content then
    joinNl (iterPopLast isLoneClose
      (countc closeBrace content - countc openBrace content) (splitNl content))
  else if countc openBrace content > countc closeBrace content then
    content ++ newlineChar :: closeNl (countc openBrace content - countc closeBrace content)
  else content

/-- One entry of the `recent_folders` array of the JSON config: a record
with a `path` attribute and (abstractly) any other attributes `rest`. -/
structure Folder (β : Type) where
  path : List Char
  rest : β

/-- The JSON config document of `clean_recent.py`: its `recent_folders`
array together with (abstractly) all of the document's other fields. -/
structure Config (α β : Type) where
  recent_folders : List (Folder β)
  rest : α

/-- The blocklist path used by `clean_recent.py`. -/
def blockedPath : List Char := ("/test/path").toList

/-- The list-comprehension predicate of `clean_recent.py`: keep a folder when
`not folder['path'].startswith('/test/path')`. -/
def keepFolder (f : Folder β) : Bool := !(blockedPath.isPrefixOf f.path)

/-- The whole transformation of `clean_recent.py` on the loaded document:
replace `recent_folders` by its filtered version and leave every other field
alone. -/
def cleanRecent (cfg : Config α β) : Config α β :=
  { recent_folders := cfg.recent_folders.filter keepFolder, rest := cfg.rest }

/-- Embedding of Python `re.sub(pattern, repl, content)` for the two
regex-based scripts. The regex engine itself is abstracted as a first-match
splitter `find`: `find content` returns `some (pre, m, post)` when the
pattern first matches the segment `m` (so `content = pre ++ m ++ post` and
the pattern matches nowhere inside `pre`), and `none` when the pattern has no
match in `content`. `repl` maps the matched segment to its replacement
(covering back-references). Fuel bounds the left-to-right rescan of `post`. -/
def reSub (find : List Char → Option (List Char × List Char × List Char))
    (repl : List Char → List Char) : Nat → List Char → List Char
  | 0, content => content
  | fuel + 1, content =>
    match find content with
    | none => content
    | some (pre, m, post) => pre ++ repl m ++ reSub find repl fuel post

/-- The whole transformation of `fix_favorites.py` on the file content:
`content_fixed = re.sub(pattern, replacement, content, flags=re.DOTALL)`,
then write `content_fixed` back. -/
def fixFavoritesRun (find : List Char → Option (List Char × List Char × List Char))
    (repl : List Char → List Char) (content : List Char) : List Char :=
  reSub find repl (content.length + 1) content

/-- The whole transformation of `fix_final.py` on the file content: also a
single `re.sub` (with a different pattern and a fixed replacement), then a
write-back. -/
def fixFinalRun (find : List Char → Option (List Char × List Char × List Char))
    (repl : List Char → List Char) (content : List Char) : List Char :=
  reSub find repl (content.length + 1) content

/-- Python substring containment `needle in hay`. -/
def containsSub (needle : List Char) : List Char → Bool
  | [] => needle.isEmpty
  | c :: rest => needle.isPrefixOf (c :: rest) || containsSub needle rest

/-- The literal start marker searched for by `rebuild_favorites_section.py`. -/
def marker : List Char := ("for fav in root.favorites : Rectangle \x7b").toList

/-- The start-index search of `rebuild_favorites_section.py`: the first
(0-based) index of a line containing the marker, scanning from index `i`. -/
def findStartAux (i : Nat) : List (List Char) → Option Nat
  | [] => none
  | l :: ls => if containsSub marker l then some i else findStartAux (i + 1) ls

/-- `start_idx` of `rebuild_favorites_section.py`. -/
def findStart (lines : List (List Char)) : Option Nat := findStartAux 0 lines

/-- The end-index search of `rebuild_favorites_section.py`: starting with
depth `d` at index `i`, add each line's net brace count and stop at the first
index `i > s` where the depth is zero. -/
def findEndAux (s : Nat) : Int → Nat → List (List Char) → Option Nat
  | _, _, [] => none
  | d, i, l :: ls =>
    if d + netBrace l = 0 ∧ s < i then some i
    else findEndAux s (d + netBrace l) (i + 1) ls

/-- `end_idx` of `rebuild_favorites_section.py`, given `start_idx = s`. -/
def findEnd (lines : List (List Char)) (s : Nat) : Option Nat :=
  findEndAux s 0 s (lines.drop s)

/-- The `new_section` replacement block of `rebuild_favorites_section.py`
(one Python string, spliced into the line list as a single element). -/
def newSectionText : String :=
  "                                for fav in root.favorites : Rectangle \x7b\n" ++
  "                                    height: 36px;\n" ++
  "                                    background: fav-touch.has-hover ? (root.dark-mode ? #383838 : #f0f0f0) : transparent;\n" ++
  "                                    border-radius: 4px;\n" ++
  "                                    \n" ++
  "                                    HorizontalLayout \x7b\n" ++
  "                                        padding-left: 8px;\n" ++
  "                                        padding-right: 8px;\n" ++
  "                                        spacing: 8px;\n" ++
  "                                        \n" ++
  "                                        Text \x7b\n" ++
  "                                            text: \"⭐\";\n" ++
  "                                            font-family: \"Segoe UI Emoji\";\n" ++
  "                                            font-size: 14px;\n" ++
  "                                            vertical-alignment: center;\n" ++
  "                                        \x7d\n" ++
  "                                        \n" ++
  "                                        VerticalLayout \x7b\n" ++
  "                                            spacing: 2px;\n" ++
  "                                            horizontal-stretch: 1;\n" ++
  "                                            \n" ++
  "                                            Text \x7b\n" ++
  "                                                text: fav.name;\n" ++
  "                                                color: root.dark-mode ? #ffffff : #111111;\n" ++
  "                                                font-size: 12px;\n" ++
  "                                                font-weight: 600;\n" ++
  "                                                overflow: elide;\n" ++
  "                                            \x7d\n" ++
  "                                            \n" ++
  "                                            Text \x7b\n" ++
  "                                                text: fav.path;\n" ++
  "                                                color: root.dark-mode ? #999999 : #666666;\n" ++
  "                                                font-size: 10px;\n" ++
  "                                                overflow: elide;\n" ++
  "                                            \x7d\n" ++
  "                                        \x7d\n" ++
  "                                        \n" ++
  "                                        Rectangle \x7b\n" ++
  "                                            width: 24px;\n" ++
  "                                            height: 24px;\n" ++
  "                                            border-radius: 4px;\n" ++
  "                                            background: remove-touch.has-hover ? (root.dark-mode ? #ff4444 : #ffcccc) : transparent;\n" ++
  "                                            \n" ++
  "                                            Text \x7b\n" ++
  "                                                text: \"🗑️\";\n" ++
  "                                                font-family: \"Segoe UI Emoji\";\n" ++
  "                                                font-size: 12px;\n" ++
  "                                                vertical-alignment: center;\n" ++
  "                                                horizontal-alignment: center;\n" ++
  "                                            \x7d\n" ++
  "                                            \n" ++
  "                                            remove-touch := TouchArea \x7b\n" ++
  "                                                mouse-cursor: pointer;\n" ++
  "                                                clicked => \x7b \n" ++
  "                                                    root.remove-from-favorites(fav.path);\n" ++
  "                                                \x7d\n" ++
  "                                            \x7d\n" ++
  "                                        \x7d\n" ++
  "                                    \x7d\n" ++
  "                                    \n" ++
  "                                    fav-touch := TouchArea \x7b\n" ++
  "                                        mouse-cursor: pointer;\n" ++
  "                                        clicked => \x7b \n" ++
  "                                            root.select-favorite(fav.path);\n" ++
  "                                            root.favorites-visible = false;\n" ++
  "                                        \x7d\n" ++
  "                                    \x7d\n" ++
  "                                \x7d\n"

/-- The `new_section` block as a character list (the single spliced-in line
element). -/
def newSection : List Char := newSectionText.toList

/-- The write step of `rebuild_favorites_section.py`: `some` of the new line
list `lines[:start_idx] + [new_section] + lines[end_idx+1:]` when both index
searches succeed, and `none` (the script exits before any write) otherwise. -/
def rebuildResult (lines : List (List Char)) : Option (List (List Char)) :=
  (findStart lines).bind fun s =>
    (findEnd lines s).map fun e => lines.take s ++ [newSection] ++ lines.drop (e + 1)

/-- Process exit code of `rebuild_favorites_section.py`: `exit(1)` when the
start marker is not found, `exit(1)` when the end of the section is not
found, and success (0) after the write otherwise. -/
def rebuildExitCode (lines : List (List Char)) : Nat :=
  match rebuildResult lines with
  | none => 1
  | some _ => 0

/-- Process exit code of `analyze_and_fix.py`: the script has no `exit` call
and falls through to the end on every input, hence success. -/
def analyzeAndFixExitCode (_lines : List (List Char)) : Nat := 0

/-- Process exit code of `fix_complete.py`: no `exit` call, always success. -/
def fixCompleteExitCode (_content : List Char) : Nat := 0

/-- Process exit code of `clean_recent.py`: no `exit` call, always success. -/
def cleanRecentExitCode (_cfg : Config α β) : Nat := 0

/-- Process exit code of `fix_favorites.py`: no `exit` call, always
success. -/
def fixFavoritesExitCode (_content : List Char) : Nat := 0

/-- Process exit code of `fix_final.py`: no `exit` call, always success. -/
def fixFinalExitCode (_content : List Char) : Nat := 0

lemma isPySpace_openBrace : isPySpace openBrace = false := by decide

lemma isPySpace_closeBrace : isPySpace closeBrace = false := by decide

lemma count_eq_zero_of_all_space {c : Char} (hc : isPySpace c = false)
    {l : List Char} (h : ∀ x ∈ l, isPySpace x = true) : countc c l = 0 := by
  unfold countc
  rw [List.count_eq_zero]
  intro hm
  rw [h c hm] at hc
  cases hc

/-- A line whose stripped content is exactly a lone closing brace has exactly
one closing brace and no opening brace. -/
lemma isLoneClose_counts {l : List Char} (h : isLoneClose l = true) :
    countc closeBrace l = 1 ∧ countc openBrace l = 0 := by
  have hs : stripChars l = [closeBrace] := by
    unfold isLoneClose at h
    exact beq_iff_eq.mp h
  unfold stripChars at hs
  have h2 : (l.dropWhile isPySpace).reverse.dropWhile isPySpace = [closeBrace] := by
    have h3 := congrArg List.reverse hs
    simpa using h3
  have hl : l.takeWhile isPySpace ++ l.dropWhile isPySpace = l :=
    List.takeWhile_append_dropWhile _ _
  have har : (l.dropWhile isPySpace).reverse
      = (l.dropWhile isPySpace).reverse.takeWhile isPySpace ++ [closeBrace] := by
    conv_lhs =>
      rw [← List.takeWhile_append_dropWhile isPySpace (l.dropWhile isPySpace).reverse]
    rw [h2]
  have key : ∀ c : Char, isPySpace c = false →
      countc c l = countc c [closeBrace] := by
    intro c hc
    have e1 : countc c l
        = countc c (l.takeWhile isPySpace) + countc c (l.dropWhile isPySpace) := by
      conv_lhs => rw [← hl]
      exact List.count_append _ _ _
    have e2 : countc c (l.dropWhile isPySpace)
        = countc c ((l.dropWhile isPySpace).reverse.takeWhile isPySpace)
          + countc c [closeBrace] := by
      have e3 : countc c (l.dropWhile isPySpace)
          = countc c (l.dropWhile isPySpace).reverse :=
        (List.count_reverse _ _).symm
      rw [e3]
      conv_lhs => rw [har]
      exact List.count_append _ _ _
    have tw1 : countc c (l.takeWhile isPySpace) = 0 :=
      count_eq_zero_of_all_space hc fun x hx => List.mem_takeWhile_imp hx
    have tw2 : countc c ((l.dropWhile isPySpace).reverse.takeWhile isPySpace) = 0 :=
      count_eq_zero_of_all_space hc fun x hx => List.mem_takeWhile_imp hx
    rw [e1, e2, tw1, tw2]
    omega
  constructor
  · rw [key closeBrace isPySpace_closeBrace]
    decide
  · rw [key openBrace isPySpace_openBrace]
    decide

lemma removeFirstSat_one_append (p : α → Bool) (a b : List α) :
    removeFirstSat p 1 (a ++ b)
      = if a.any p then removeFirstSat p 1 a ++ b else a ++ removeFirstSat p 1 b := by
  induction a with
  | nil => simp [removeFirstSat]
  | cons x xs ih =>
    cases hx : p x with
    | true => simp [removeFirstSat, hx]
    | false =>
      simp only [List.cons_append, removeFirstSat, hx, Bool.false_eq_true, if_false,
        List.any_cons, Bool.false_or, ih]
      split <;> simp_all

lemma popLast_eq_reverse (p : α → Bool) (l : List α) :
    popLast p l = (removeFirstSat p 1 l.reverse).reverse := by
  induction l with
  | nil => rfl
  | cons x xs ih =>
    rw [List.reverse_cons, removeFirstSat_one_append, List.any_reverse]
    cases hany : xs.any p with
    | true =>
      rw [if_pos rfl, List.reverse_append, ← ih]
      simp [popLast, hany]
    | false =>
      rw [if_neg Bool.false_ne_true]
      cases hx : p x with
      | true => simp [popLast, removeFirstSat, hany, hx]
      | false => simp [popLast, removeFirstSat, hany, hx]

lemma removeFirstSat_succ (p : α → Bool) (n : Nat) (l : List α) :
    removeFirstSat p (n + 1) l = removeFirstSat p n (removeFirstSat p 1 l) := by
  induction l generalizing n with
  | nil => cases n <;> rfl
  | cons x xs ih =>
    cases hx : p x with
    | true => simp [removeFirstSat, hx]
    | false =>
      cases n with
      | zero => simp [removeFirstSat, hx]
      | succ m =>
        have e1 : removeFirstSat p (m + 1 + 1) (x :: xs)
            = x :: removeFirstSat p (m + 1 + 1) xs := by
          simp [removeFirstSat, hx]
        have e2 : removeFirstSat p 1 (x :: xs) = x :: removeFirstSat p 1 xs := by
          simp [removeFirstSat, hx]
        have e3 : removeFirstSat p (m + 1) (x :: removeFirstSat p 1 xs)
            = x :: removeFirstSat p (m + 1) (removeFirstSat p 1 xs) := by
          simp [removeFirstSat, hx]
        rw [e1, e2, e3, ← ih (m + 1)]

/-- The deletion loop of the brace fixers removes exactly the last `n`
lines satisfying the predicate (all of them when fewer than `n` exist). -/
lemma iterPopLast_eq_removeLastSat (p : α → Bool) (n : Nat) (l : List α) :
    iterPopLast p n l = removeLastSat p n l := by
  induction n generalizing l with
  | zero => simp [iterPopLast, removeLastSat, removeFirstSat]
  | succ m ih =>
    show iterPopLast p m (popLast p l) = removeLastSat p (m + 1) l
    rw [ih, removeLastSat, removeLastSat, popLast_eq_reverse, List.reverse_reverse,
      ← removeFirstSat_succ]

lemma removeFirstSat_sublist (p : α → Bool) (n : Nat) (l : List α) :
    (removeFirstSat p n l).Sublist l := by
  induction l generalizing n with
  | nil => cases n <;> simp [removeFirstSat]
  | cons x xs ih =>
    cases n with
    | zero => simp [removeFirstSat]
    | succ m =>
      cases hx : p x with
      | true =>
        simp only [removeFirstSat, hx, if_true]
        exact (ih m).cons x
      | false =>
        simp only [removeFirstSat, hx, Bool.false_eq_true, if_false]
        exact (ih (m + 1)).cons₂ x

lemma removeLastSat_sublist (p : α → Bool) (n : Nat) (l : List α) :
    (removeLastSat p n l).Sublist l := by
  have h := removeFirstSat_sublist p n l.reverse
  have h2 : (removeFirstSat p n l.reverse).reverse.Sublist l.reverse.reverse :=
    List.reverse_sublist.mpr h
  rw [List.reverse_reverse] at h2
  exact h2

lemma removeFirstSat_length (p : α → Bool) (n : Nat) (l : List α) :
    (removeFirstSat p n l).length + min n (l.countP p) = l.length := by
  induction l generalizing n with
  | nil => cases n <;> simp [removeFirstSat]
  | cons x xs ih =>
    cases n with
    | zero => simp [removeFirstSat]
    | succ m =>
      cases hx : p x with
      | true =>
        have hih := ih m
        simp only [removeFirstSat, hx, if_true, List.countP_cons, List.length_cons]
        omega
      | false =>
        have hih := ih (m + 1)
        simp only [removeFirstSat, hx, Bool.false_eq_true, if_false, List.countP_cons,
          List.length_cons]
        omega

lemma removeLastSat_length (p : α → Bool) (n : Nat) (l : List α) :
    (removeLastSat p n l).length + min n (l.countP p) = l.length := by
  have h := removeFirstSat_length p n l.reverse
  rw [List.countP_reverse, List.length_reverse] at h
  rw [removeLastSat, List.length_reverse]
  exact h

lemma removeFirstSat_filter_not (p : α → Bool) (n : Nat) (l : List α) :
    (removeFirstSat p n l).filter (fun x => !(p x)) = l.filter (fun x => !(p x)) := by
  induction l generalizing n with
  | nil => cases n <;> rfl
  | cons x xs ih =>
    cases n with
    | zero => rfl
    | succ m =>
      cases hx : p x with
      | true => simp [removeFirstSat, hx, List.filter_cons, ih]
      | false => simp [removeFirstSat, hx, List.filter_cons, ih]

lemma removeLastSat_filter_not (p : α → Bool) (n : Nat) (l : List α) :
    (removeLastSat p n l).filter (fun x => !(p x)) = l.filter (fun x => !(p x)) := by
  rw [removeLastSat, List.filter_reverse, removeFirstSat_filter_not,
    ← List.filter_reverse, List.reverse_reverse]

lemma sumCount_cons (c : Char) (x : List Char) (ls : List (List Char)) :
    sumCount c (x :: ls) = countc c x + sumCount c ls := by
  simp [sumCount]

lemma sumCount_reverse (c : Char) (ls : List (List Char)) :
    sumCount c ls.reverse = sumCount c ls := by
  simp [sumCount, List.map_reverse, List.sum_reverse]

lemma sumCount_removeFirstSat (c : Char) (p : List Char → Bool) (k : Nat)
    (hp : ∀ x, p x = true → countc c x = k) (l : List (List Char)) :
    ∀ n : Nat,
      sumCount c (removeFirstSat p n l) + k * min n (l.countP p) = sumCount c l := by
  induction l with
  | nil => intro n; cases n <;> simp [removeFirstSat]
  | cons x xs ih =>
    intro n
    cases n with
    | zero => simp [removeFirstSat]
    | succ m =>
      cases hx : p x with
      | true =>
        have hih := ih m
        have e1 : removeFirstSat p (m + 1) (x :: xs) = removeFirstSat p m xs := by
          simp [removeFirstSat, hx]
        have e3 : (x :: xs).countP p = xs.countP p + 1 := by
          simp [List.countP_cons, hx]
        rw [e1, sumCount_cons, e3, hp x hx, Nat.succ_min_succ, Nat.mul_succ]
        omega
      | false =>
        have hih := ih (m + 1)
        have e1 : removeFirstSat p (m + 1) (x :: xs) = x :: removeFirstSat p (m + 1) xs := by
          simp [removeFirstSat, hx]
        have e3 : (x :: xs).countP p = xs.countP p := by
          simp [List.countP_cons, hx]
        rw [e1, sumCount_cons, sumCount_cons, e3]
        omega

lemma sumCount_removeLastSat (c : Char) (p : List Char → Bool) (k : Nat)
    (hp : ∀ x, p x = true → countc c x = k) (l : List (List Char)) (n : Nat) :
    sumCount c (removeLastSat p n l) + k * min n (l.countP p) = sumCount c l := by
  have h := sumCount_removeFirstSat c p k hp l.reverse n
  rw [List.countP_reverse, sumCount_reverse] at h
  rw [removeLastSat, sumCount_reverse]
  exact h

lemma joinNl_cons_cons (l m : List Char) (ls : List (List Char)) :
    joinNl (l :: m :: ls) = l ++ newlineChar :: joinNl (m :: ls) := rfl

lemma splitNl_ne_nil (content : List Char) : splitNl content ≠ [] := by
  cases content with
  | nil => simp [splitNl]
  | cons c rest =>
    simp only [splitNl]
    split
    · simp
    · split <;> simp

lemma splitNl_cons_ex (rest : List Char) :
    ∃ l ls, splitNl rest = l :: ls := by
  cases h : splitNl rest with
  | nil => exact absurd h (splitNl_ne_nil rest)
  | cons l ls => exact ⟨l, ls, rfl⟩

/-- Splitting on newlines and rejoining with newlines is the identity, so the
balanced branch of `fix_complete.py` writes the content unchanged. -/
lemma joinNl_splitNl (content : List Char) : joinNl (splitNl content) = content := by
  induction content with
  | nil => rfl
  | cons c rest ih =>
    obtain ⟨l, ls, hls⟩ := splitNl_cons_ex rest
    cases hc : c == newlineChar with
    | true =>
      have hceq : c = newlineChar := beq_iff_eq.mp hc
      have e : splitNl (c :: rest) = [] :: splitNl rest := by
        simp [splitNl, hc]
      rw [e, hls, joinNl_cons_cons, ← hls, ih, List.nil_append, hceq]
    | false =>
      have e : splitNl (c :: rest) = (c :: l) :: ls := by
        simp only [splitNl, hc, Bool.false_eq_true, if_false]
        rw [hls]
      rw [hls] at ih
      rw [e]
      cases ls with
      | nil =>
        show c :: l = c :: rest
        rw [show joinNl [l] = l from rfl] at ih
        rw [ih]
      | cons m ms =>
        rw [joinNl_cons_cons, List.cons_append, ← joinNl_cons_cons, ih]

lemma countc_splitNl (c : Char) (hc : (c == newlineChar) = false) (content : List Char) :
    sumCount c (splitNl content) = countc c content := by
  induction content with
  | nil => simp [splitNl, sumCount, countc]
  | cons d rest ih =>
    cases hd : d == newlineChar with
    | true =>
      have e : splitNl (d :: rest) = [] :: splitNl rest := by
        simp [splitNl, hd]
      have hdc : (d == c) = false := by
        have h1 : d = newlineChar := beq_iff_eq.mp hd
        have h2 : ¬c = newlineChar := by
          intro h
          rw [h] at hc
          simp at hc
        rw [h1]
        exact beq_eq_false_iff_ne.mpr fun h => h2 h.symm
      rw [e, sumCount_cons, ih]
      simp [countc, List.count_cons, hdc]
    | false =>
      obtain ⟨l, ls, hls⟩ := splitNl_cons_ex rest
      have e : splitNl (d :: rest) = (d :: l) :: ls := by
        simp only [splitNl, hd, Bool.false_eq_true, if_false]
        rw [hls]
      rw [hls, sumCount_cons] at ih
      rw [e, sumCount_cons]
      simp only [countc, List.count_cons] at *
      omega

lemma countc_joinNl (c : Char) (hc : (c == newlineChar) = false) (ls : List (List Char)) :
    countc c (joinNl ls) = sumCount c ls := by
  induction ls with
  | nil => simp [joinNl, sumCount, countc]
  | cons l ls ih =>
    cases ls with
    | nil => simp [joinNl, sumCount, countc]
    | cons m ms =>
      have hnc : (newlineChar == c) = false := by
        have h2 : ¬c = newlineChar := by
          intro h
          rw [h] at hc
          simp at hc
        exact beq_eq_false_iff_ne.mpr fun h => h2 h.symm
      rw [joinNl_cons_cons, sumCount_cons]
      simp only [countc, List.count_append, List.count_cons, hnc, Bool.false_eq_true,
        if_false] at *
      omega

lemma braceLevelLines_cons (l : List Char) (ls : List (List Char)) :
    braceLevelLines (l :: ls) = netBrace l + braceLevelLines ls := by
  simp [braceLevelLines]

lemma braceLevelLines_append (a b : List (List Char)) :
    braceLevelLines (a ++ b) = braceLevelLines a + braceLevelLines b := by
  simp [braceLevelLines]

/-- The final `brace_level` is the difference of the total open and close
counts. -/
lemma braceLevelLines_eq (lines : List (List Char)) :
    braceLevelLines lines
      = (sumCount openBrace lines : Int) - (sumCount closeBrace lines : Int) := by
  induction lines with
  | nil => simp [braceLevelLines, sumCount]
  | cons l ls ih =>
    rw [braceLevelLines_cons, sumCount_cons, sumCount_cons, ih, netBrace]
    push_cast
    ring

lemma countc_closeNl_close (n : Nat) : countc closeBrace (closeNl n) = n := by
  induction n with
  | zero => rfl
  | succ m ih =>
    have h1 : (newlineChar == closeBrace) = false := by decide
    have h2 : (closeBrace == closeBrace) = true := by decide
    simp [closeNl, countc, List.count_cons, h1, h2]
    simpa [countc] using ih

lemma countc_closeNl_open (n : Nat) : countc openBrace (closeNl n) = 0 := by
  induction n with
  | zero => rfl
  | succ m ih =>
    have h1 : (newlineChar == openBrace) = false := by decide
    have h2 : (closeBrace == openBrace) = false := by decide
    simp [closeNl, countc, List.count_cons, h1, h2]
    simpa [countc] using ih

lemma countc_flatten (c : Char) (ls : List (List Char)) :
    countc c ls.flatten = sumCount c ls := by
  simp only [countc, sumCount, List.count_flatten]
  rfl

lemma braceLevelLines_nil : braceLevelLines [] = 0 := rfl

lemma bll_take_succ_cons (l : List Char) (t : List (List Char)) (k : Nat) :
    braceLevelLines ((l :: t).take (k + 1)) = netBrace l + braceLevelLines (t.take k) := by
  rw [List.take_succ_cons, braceLevelLines_cons]

lemma auditAux_cons (d : Int) (i : Nat) (l : List Char) (t : List (List Char)) :
    auditAux d i (l :: t)
      = if d + netBrace l < 0 then i :: auditAux (d + netBrace l) (i + 1) t
        else auditAux (d + netBrace l) (i + 1) t := rfl

/-- Membership characterisation of the audit loop: an index is recorded
exactly when the running depth right after the corresponding line is
negative. -/
lemma mem_auditAux (d : Int) (i j : Nat) (ls : List (List Char)) :
    j ∈ auditAux d i ls
      ↔ ∃ k, k < ls.length ∧ j = i + k ∧ d + braceLevelLines (ls.take (k + 1)) < 0 := by
  induction ls generalizing d i with
  | nil => simp [auditAux]
  | cons l t ih =>
    rw [auditAux_cons]
    by_cases h : d + netBrace l < 0
    · rw [if_pos h, List.mem_cons, ih]
      constructor
      · rintro (rfl | ⟨k, hk, hjk, hlt⟩)
        · refine ⟨0, by simp, by simp, ?_⟩
          rw [bll_take_succ_cons, List.take_zero, braceLevelLines_nil]
          omega
        · refine ⟨k + 1, by simp only [List.length_cons]; omega, by omega, ?_⟩
          rw [bll_take_succ_cons]
          omega
      · rintro ⟨k, hk, hjk, hlt⟩
        cases k with
        | zero => left; omega
        | succ k2 =>
          right
          refine ⟨k2, by simp at hk; omega, by omega, ?_⟩
          rw [bll_take_succ_cons] at hlt
          omega
    · rw [if_neg h, ih]
      constructor
      · rintro ⟨k, hk, hjk, hlt⟩
        refine ⟨k + 1, by simp only [List.length_cons]; omega, by omega, ?_⟩
        rw [bll_take_succ_cons]
        omega
      · rintro ⟨k, hk, hjk, hlt⟩
        cases k with
        | zero =>
          exfalso
          rw [bll_take_succ_cons, List.take_zero, braceLevelLines_nil] at hlt
          omega
        | succ k2 =>
          refine ⟨k2, by simp at hk; omega, by omega, ?_⟩
          rw [bll_take_succ_cons] at hlt
          omega

lemma findStartAux_cons (i : Nat) (l : List Char) (t : List (List Char)) :
    findStartAux i (l :: t)
      = if containsSub marker l then some i else findStartAux (i + 1) t := rfl

/-- The start-line search returns the first index whose line contains the
marker. -/
lemma findStartAux_eq_some (i k : Nat) (ls : List (List Char))
    (hk : k < ls.length)
    (hmark : containsSub marker (ls.getD k []) = true)
    (hbefore : ∀ j, j < k → containsSub marker (ls.getD j []) = false) :
    findStartAux i ls = some (i + k) := by
  induction ls generalizing i k with
  | nil => simp at hk
  | cons l t ih =>
    rw [findStartAux_cons]
    cases k with
    | zero =>
      rw [List.getD_cons_zero] at hmark
      rw [if_pos hmark]
      simp
    | succ k2 =>
      have h0 : containsSub marker l = false := by
        have h1 := hbefore 0 (Nat.succ_pos k2)
        rwa [List.getD_cons_zero] at h1
      rw [if_neg (by simp [h0])]
      have h2 := ih (i + 1) k2 (by simp at hk; omega)
        (by rwa [List.getD_cons_succ] at hmark)
        (fun j hj => by
          have h3 := hbefore (j + 1) (by omega)
          rwa [List.getD_cons_succ] at h3)
      rw [h2]
      congr 1
      omega

lemma findEndAux_cons (s : Nat) (d : Int) (i : Nat) (l : List Char)
    (t : List (List Char)) :
    findEndAux s d i (l :: t)
      = if d + netBrace l = 0 ∧ s < i then some i
        else findEndAux s (d + netBrace l) (i + 1) t := rfl

/-- The end-line search returns the first index past `s` at which the running
depth returns to zero. -/
lemma findEndAux_eq_some (s : Nat) (ms : List (List Char)) :
    ∀ (d : Int) (i m : Nat), m < ms.length →
      d + braceLevelLines (ms.take (m + 1)) = 0 → s < i + m →
      (∀ m2, m2 < m → ¬(d + braceLevelLines (ms.take (m2 + 1)) = 0 ∧ s < i + m2)) →
      findEndAux s d i ms = some (i + m) := by
  induction ms with
  | nil =>
    intro d i m hm
    simp at hm
  | cons l t ih =>
    intro d i m hm hz hgt hmin
    rw [findEndAux_cons]
    cases m with
    | zero =>
      rw [bll_take_succ_cons, List.take_zero, braceLevelLines_nil] at hz
      rw [if_pos ⟨by omega, by omega⟩]
      simp
    | succ m2 =>
      have hguard : ¬(d + netBrace l = 0 ∧ s < i) := by
        have h1 := hmin 0 (Nat.succ_pos m2)
        rw [bll_take_succ_cons, List.take_zero, braceLevelLines_nil] at h1
        intro h2
        exact h1 ⟨by omega, by omega⟩
      rw [if_neg hguard]
      rw [bll_take_succ_cons] at hz
      have h2 := ih (d + netBrace l) (i + 1) m2 (by simp at hm; omega)
        (by omega) (by omega)
        (fun m3 hm3 => by
          have h3 := hmin (m3 + 1) (by omega)
          rw [bll_take_succ_cons] at h3
          intro h4
          exact h3 ⟨by omega, by omega⟩)
      rw [h2]
      congr 1
      omega

/-- C2: the config pruner writes back the same document with only the
`recent_folders` field changed, and the new array is exactly the
order-preserving subsequence of the original entries whose path does not
start with the blocklist path `/test/path`. -/
theorem cleanRecent_spec {α β : Type} (cfg : Config α β) :
    (cleanRecent cfg).rest = cfg.rest ∧
    (cleanRecent cfg).recent_folders
      = cfg.recent_folders.filter (fun f => !(blockedPath.isPrefixOf f.path)) ∧
    (cleanRecent cfg).recent_folders.Sublist cfg.recent_folders ∧
    ∀ f ∈ (cleanRecent cfg).recent_folders, blockedPath.isPrefixOf f.path = false := by
  refine ⟨rfl, rfl, List.filter_sublist _, ?_⟩
  intro f hf
  have h : keepFolder f = true :=
    List.of_mem_filter (p := keepFolder) (l := cfg.recent_folders) hf
  simpa [keepFolder] using h

/-- C6: the pruner's filter is idempotent: a second run removes nothing,
the entry count is unchanged, and no surviving entry's path starts with
`/test/path`. -/
theorem cleanRecent_idempotent {α β : Type} (cfg : Config α β) :
    cleanRecent (cleanRecent cfg) = cleanRecent cfg ∧
    (cleanRecent (cleanRecent cfg)).recent_folders.length
      = (cleanRecent cfg).recent_folders.length ∧
    ∀ f ∈ (cleanRecent cfg).recent_folders, blockedPath.isPrefixOf f.path = false := by
  have h1 : cleanRecent (cleanRecent cfg) = cleanRecent cfg := by
    obtain ⟨rf, r⟩ := cfg
    simp only [cleanRecent, Config.mk.injEq, and_true]
    exact List.filter_eq_self.mpr fun a ha => List.of_mem_filter ha
  refine ⟨h1, by rw [h1], fun f hf => ?_⟩
  have h : keepFolder f = true :=
    List.of_mem_filter (p := keepFolder) (l := cfg.recent_folders) hf
  simpa [keepFolder] using h

/-- C4: when the section-replacing pattern has no match in the input text,
both regex-based scripts write back exactly the content they read. -/
theorem regex_no_match_unchanged
    (find : List Char → Option (List Char × List Char × List Char))
    (repl : List Char → List Char) (content : List Char)
    (h : find content = none) :
    fixFavoritesRun find repl content = content ∧
    fixFinalRun find repl content = content := by
  constructor <;> simp [fixFavoritesRun, fixFinalRun, reSub, h]

/-- Witness for C4 at a concrete no-match matcher and input. -/
theorem regex_no_match_unchanged_witness :
    fixFavoritesRun (fun _ => none) (fun m => m) ("abc").toList = ("abc").toList ∧
    fixFinalRun (fun _ => none) (fun m => m) ("abc").toList = ("abc").toList :=
  regex_no_match_unchanged (fun _ => none) (fun m => m) ("abc").toList rfl

/-- C5: a file whose final running depth is zero (per-line fixer), or whose
global open count equals its close count (whole-file fixer), is left
unchanged by the brace fixer, and hence by two consecutive runs. -/
theorem balanced_fix_unchanged (lines : List (List Char)) (content : List Char)
    (h1 : braceLevelLines lines = 0)
    (h2 : countc openBrace content = countc closeBrace content) :
    analyzeAndFix lines = lines ∧ analyzeAndFix (analyzeAndFix lines) = lines ∧
    fixComplete content = content ∧ fixComplete (fixComplete content) = content := by
  have e1 : analyzeAndFix lines = lines := by
    unfold analyzeAndFix
    rw [if_pos h1]
  have e3 : fixComplete content = content := by
    unfold fixComplete
    rw [if_neg (by omega), if_neg (by omega)]
  exact ⟨e1, by rw [e1, e1], e3, by rw [e3, e3]⟩

/-- Witness for C5 at the empty file. -/
theorem balanced_fix_unchanged_witness :
    analyzeAndFix [] = [] ∧ analyzeAndFix (analyzeAndFix []) = [] ∧
    fixComplete [] = [] ∧ fixComplete (fixComplete []) = [] :=
  balanced_fix_unchanged [] [] (by decide) (by decide)

/-- C8: the auditor records an error for a (1-based) line index exactly when
the running depth right after that line is negative; hence it reports the
first line where the depth goes negative and every later line while it
stays negative. -/
theorem audit_errors_iff (lines : List (List Char)) (j : Nat) :
    j ∈ auditErrors lines
      ↔ 1 ≤ j ∧ j ≤ lines.length ∧ braceLevelLines (lines.take j) < 0 := by
  unfold auditErrors
  rw [mem_auditAux]
  constructor
  · rintro ⟨k, hk, rfl, hlt⟩
    refine ⟨by omega, by omega, ?_⟩
    rw [Nat.add_comm 1 k]
    omega
  · rintro ⟨hj1, hj2, hlt⟩
    refine ⟨j - 1, by omega, by omega, ?_⟩
    rw [show j - 1 + 1 = j from by omega]
    omega

/-- C9: when the start marker is missing, or the depth never returns to zero
after the start line, the rebuilder terminates before its write step and the
target file's content is unchanged. -/
theorem rebuild_no_write_on_error (lines : List (List Char))
    (h : findStart lines = none ∨
      ∃ s, findStart lines = some s ∧ findEnd lines s = none) :
    rebuildResult lines = none ∧ (rebuildResult lines).getD lines = lines := by
  have hn : rebuildResult lines = none := by
    rcases h with h1 | ⟨s, h1, h2⟩
    · simp [rebuildResult, h1]
    · simp [rebuildResult, h1, h2]
  exact ⟨hn, by rw [hn]; rfl⟩

/-- Witness for C9: the empty file contains no marker line, so nothing is
written. -/
theorem rebuild_no_write_on_error_witness :
    rebuildResult [] = none ∧ (rebuildResult []).getD [] = [] :=
  rebuild_no_write_on_error [] (Or.inl rfl)

/-- C3 is false as stated: the brace-depth rebuilder defines the distinct
exit code 1 for its marker-not-found failure mode (shown here on the empty
input file). -/
theorem rebuild_exit_one_cex : rebuildExitCode [] = 1 := rfl

lemma rebuildResult_eq_some_iff (l : List (List Char)) :
    (∃ r, rebuildResult l = some r)
      ↔ ∃ s e, findStart l = some s ∧ findEnd l s = some e := by
  unfold rebuildResult
  cases h1 : findStart l with
  | none => simp
  | some s =>
    cases h2 : findEnd l s with
    | none => simp [h2]
    | some e => simp [h2]

lemma rebuildExitCode_zero_iff (l : List (List Char)) :
    rebuildExitCode l = 0 ↔ ∃ r, rebuildResult l = some r := by
  unfold rebuildExitCode
  cases hr : rebuildResult l with
  | none => simp
  | some r => simp

/-- C3 amended: every script other than the brace-depth rebuilder always
terminates with success; the rebuilder exits 0 exactly when both of its
searches succeed and exits 1 on either failure mode. -/
theorem script_exit_codes :
    (∀ l : List (List Char), analyzeAndFixExitCode l = 0) ∧
    (∀ c : List Char, fixCompleteExitCode c = 0) ∧
    (∀ c : List Char, fixFavoritesExitCode c = 0) ∧
    (∀ c : List Char, fixFinalExitCode c = 0) ∧
    (∀ (α β : Type) (cfg : Config α β), cleanRecentExitCode cfg = 0) ∧
    (∀ l : List (List Char),
      (rebuildExitCode l = 0 ∨ rebuildExitCode l = 1) ∧
      (rebuildExitCode l = 0
        ↔ ∃ s e, findStart l = some s ∧ findEnd l s = some e)) := by
  refine ⟨fun _ => rfl, fun _ => rfl, fun _ => rfl, fun _ => rfl,
    fun _ _ _ => rfl, fun l => ?_⟩
  constructor
  · cases hr : rebuildResult l with
    | none =>
      right
      unfold rebuildExitCode
      rw [hr]
    | some r =>
      left
      unfold rebuildExitCode
      rw [hr]
  · rw [rebuildExitCode_zero_iff, rebuildResult_eq_some_iff]

lemma sumCount_append (c : Char) (a b : List (List Char)) :
    sumCount c (a ++ b) = sumCount c a + sumCount c b := by
  simp [sumCount]

/-- C10: in the surplus-closer case both fixers delete exactly the last
`min(surplus, available)` lines whose stripped content is a lone closing
brace, and every other line appears unchanged and in its original order. -/
theorem surplus_removal_frame (lines : List (List Char)) (content : List Char)
    (h1 : braceLevelLines lines < 0)
    (h2 : countc closeBrace content > countc openBrace content) :
    analyzeAndFix lines
      = removeLastSat isLoneClose (-braceLevelLines lines).toNat lines ∧
    (analyzeAndFix lines).Sublist lines ∧
    (analyzeAndFix lines).length
      + min (-braceLevelLines lines).toNat (lines.countP isLoneClose)
      = lines.length ∧
    (analyzeAndFix lines).filter (fun l => !(isLoneClose l))
      = lines.filter (fun l => !(isLoneClose l)) ∧
    fixComplete content
      = joinNl (removeLastSat isLoneClose
          (countc closeBrace content - countc openBrace content) (splitNl content)) ∧
    (removeLastSat isLoneClose
        (countc closeBrace content - countc openBrace content)
        (splitNl content)).Sublist (splitNl content) := by
  have ha : analyzeAndFix lines
      = iterPopLast isLoneClose (-braceLevelLines lines).toNat lines := by
    unfold analyzeAndFix
    rw [if_neg (by omega), if_pos h1]
  rw [ha, iterPopLast_eq_removeLastSat]
  have hf : fixComplete content
      = joinNl (removeLastSat isLoneClose
          (countc closeBrace content - countc openBrace content) (splitNl content)) := by
    unfold fixComplete
    rw [if_pos h2, iterPopLast_eq_removeLastSat]
  exact ⟨rfl, removeLastSat_sublist _ _ _, removeLastSat_length _ _ _,
    removeLastSat_filter_not _ _ _, hf, removeLastSat_sublist _ _ _⟩

/-- Witness for C10 at a one-line file consisting of a lone closing brace. -/
theorem surplus_removal_frame_witness :
    analyzeAndFix [[closeBrace]] = [] ∧ fixComplete [closeBrace] = [] := by
  have h := surplus_removal_frame [[closeBrace]] [closeBrace] (by decide) (by decide)
  exact ⟨h.1.trans (by decide), h.2.2.2.2.1.trans (by decide)⟩

/-- C1 is false as stated: on the single line of two closing braces the
deletion branch runs (the final depth is -2) but finds no line whose
stripped content is a lone closing brace, so the written file still has 0
opening and 2 closing braces. -/
theorem brace_fixer_unbalanced_cex :
    braceLevelLines [[closeBrace, closeBrace]] ≠ 0 ∧
    countc openBrace (analyzeAndFix [[closeBrace, closeBrace]]).flatten
      ≠ countc closeBrace (analyzeAndFix [[closeBrace, closeBrace]]).flatten := by
  decide

/-- C1 amended: after either brace fixer runs, the written file has an equal
number of opening and closing braces, provided that in the surplus-closer
case the input contains at least surplus-many lines whose stripped content
is a lone closing brace (the missing-closer and already-balanced cases are
unconditional). -/
theorem brace_fixer_balances (lines : List (List Char)) (content : List Char)
    (hl : braceLevelLines lines < 0 →
      (-braceLevelLines lines).toNat ≤ lines.countP isLoneClose)
    (hc : countc closeBrace content > countc openBrace content →
      countc closeBrace content - countc openBrace content
        ≤ (splitNl content).countP isLoneClose) :
    countc openBrace (analyzeAndFix lines).flatten
      = countc closeBrace (analyzeAndFix lines).flatten ∧
    countc openBrace (fixComplete content)
      = countc closeBrace (fixComplete content) := by
  have hp_close : ∀ x, isLoneClose x = true → countc closeBrace x = 1 :=
    fun x hx => (isLoneClose_counts hx).1
  have hp_open : ∀ x, isLoneClose x = true → countc openBrace x = 0 :=
    fun x hx => (isLoneClose_counts hx).2
  constructor
  · rw [countc_flatten, countc_flatten]
    have hbl := braceLevelLines_eq lines
    by_cases hz : braceLevelLines lines = 0
    · rw [show analyzeAndFix lines = lines from by unfold analyzeAndFix; rw [if_pos hz]]
      omega
    · by_cases hneg : braceLevelLines lines < 0
      · have ha : analyzeAndFix lines
            = removeLastSat isLoneClose (-braceLevelLines lines).toNat lines := by
          unfold analyzeAndFix
          rw [if_neg hz, if_pos hneg, iterPopLast_eq_removeLastSat]
        rw [ha]
        have hcl := sumCount_removeLastSat closeBrace isLoneClose 1 hp_close lines
          (-braceLevelLines lines).toNat
        have hop := sumCount_removeLastSat openBrace isLoneClose 0 hp_open lines
          (-braceLevelLines lines).toNat
        have hmin : min (-braceLevelLines lines).toNat (lines.countP isLoneClose)
            = (-braceLevelLines lines).toNat := by
          have h3 := hl hneg
          omega
        rw [hmin, one_mul] at hcl
        rw [zero_mul, Nat.add_zero] at hop
        omega
      · have ha : analyzeAndFix lines
            = lines ++ [closeNl (braceLevelLines lines).toNat] := by
          unfold analyzeAndFix
          rw [if_neg hz, if_neg hneg]
        have e1 : sumCount closeBrace [closeNl (braceLevelLines lines).toNat]
            = (braceLevelLines lines).toNat := by
          simp only [sumCount, List.map_cons, List.map_nil, List.sum_cons, List.sum_nil]
          rw [Nat.add_zero, countc_closeNl_close]
        have e2 : sumCount openBrace [closeNl (braceLevelLines lines).toNat] = 0 := by
          simp only [sumCount, List.map_cons, List.map_nil, List.sum_cons, List.sum_nil]
          rw [Nat.add_zero, countc_closeNl_open]
        rw [ha, sumCount_append, sumCount_append, e1, e2]
        omega
  · have hno : (openBrace == newlineChar) = false := by decide
    have hnc : (closeBrace == newlineChar) = false := by decide
    by_cases hgt : countc closeBrace content > countc openBrace content
    · have hf : fixComplete content
          = joinNl (removeLastSat isLoneClose
              (countc closeBrace content - countc openBrace content)
              (splitNl content)) := by
        unfold fixComplete
        rw [if_pos hgt, iterPopLast_eq_removeLastSat]
      rw [hf, countc_joinNl _ hno, countc_joinNl _ hnc]
      have hso := countc_splitNl openBrace hno content
      have hsc := countc_splitNl closeBrace hnc content
      have hcl := sumCount_removeLastSat closeBrace isLoneClose 1 hp_close
        (splitNl content) (countc closeBrace content - countc openBrace content)
      have hop := sumCount_removeLastSat openBrace isLoneClose 0 hp_open
        (splitNl content) (countc closeBrace content - countc openBrace content)
      have hmin : min (countc closeBrace content - countc openBrace content)
          ((splitNl content).countP isLoneClose)
          = countc closeBrace content - countc openBrace content := by
        have h3 := hc hgt
        omega
      rw [hmin, one_mul] at hcl
      rw [zero_mul, Nat.add_zero] at hop
      omega
    · by_cases hlt : countc openBrace content > countc closeBrace content
      · have hf : fixComplete content
            = content ++ newlineChar
                :: closeNl (countc openBrace content - countc closeBrace content) := by
          unfold fixComplete
          rw [if_neg hgt, if_pos hlt]
        have e1 : (newlineChar == openBrace) = false := by decide
        have e2 : (newlineChar == closeBrace) = false := by decide
        have ho : countc openBrace (content ++ newlineChar
            :: closeNl (countc openBrace content - countc closeBrace content))
            = countc openBrace content := by
          have q2 := countc_closeNl_open
            (countc openBrace content - countc closeBrace content)
          unfold countc at q2 ⊢
          rw [List.count_append, List.count_cons, q2]
          simp [e1]
        have hc2 : countc closeBrace (content ++ newlineChar
            :: closeNl (countc openBrace content - countc closeBrace content))
            = countc closeBrace content
              + (countc openBrace content - countc closeBrace content) := by
          have q1 := countc_closeNl_close
            (countc openBrace content - countc closeBrace content)
          unfold countc at q1 ⊢
          rw [List.count_append, List.count_cons, q1]
          simp [e2]
        rw [hf, ho, hc2]
        omega
      · have hf : fixComplete content = content := by
          unfold fixComplete
          rw [if_neg hgt, if_neg hlt]
        rw [hf]
        omega

/-- Witness for C1 (amended) at a one-line surplus-closer file. -/
theorem brace_fixer_balances_witness :
    countc openBrace (analyzeAndFix [[closeBrace]]).flatten
      = countc closeBrace (analyzeAndFix [[closeBrace]]).flatten ∧
    countc openBrace (fixComplete [closeBrace])
      = countc closeBrace (fixComplete [closeBrace]) :=
  brace_fixer_balances [[closeBrace]] [closeBrace] (by decide) (by decide)

/-- C7: when line `s` is the first line containing the literal start marker
and the running depth summed from line `s` first returns to zero at the
later line `e`, the rebuilder writes lines `0..s-1` unchanged, then the
fixed replacement block as a single element, then lines `e+1..` unchanged. -/
theorem rebuild_splice (lines : List (List Char)) (s e : Nat)
    (hs : s < lines.length)
    (hmark : containsSub marker (lines.getD s []) = true)
    (hbefore : ∀ j, j < s → containsSub marker (lines.getD j []) = false)
    (he : e < lines.length) (hse : s < e)
    (hzero : braceLevelLines ((lines.drop s).take (e - s + 1)) = 0)
    (hfirst : ∀ j, s < j → j < e →
      braceLevelLines ((lines.drop s).take (j - s + 1)) ≠ 0) :
    rebuildResult lines
      = some (lines.take s ++ [newSection] ++ lines.drop (e + 1)) := by
  have h1 : findStart lines = some s := by
    have h := findStartAux_eq_some 0 s lines hs hmark hbefore
    unfold findStart
    rw [h, Nat.zero_add]
  have h2 : findEnd lines s = some e := by
    unfold findEnd
    have hlen : e - s < (lines.drop s).length := by
      rw [List.length_drop]
      omega
    have hz2 : (0 : Int) + braceLevelLines ((lines.drop s).take (e - s + 1)) = 0 := by
      omega
    have hgt2 : s < s + (e - s) := by omega
    have hmin2 : ∀ m2, m2 < e - s →
        ¬((0 : Int) + braceLevelLines ((lines.drop s).take (m2 + 1)) = 0
          ∧ s < s + m2) := by
      intro m2 hm2 hcontra
      obtain ⟨hz3, hlt3⟩ := hcontra
      have hj := hfirst (s + m2) (by omega) (by omega)
      rw [show s + m2 - s = m2 from by omega] at hj
      omega
    have h := findEndAux_eq_some s (lines.drop s) 0 s (e - s) hlen hz2 hgt2 hmin2
    rw [h, show s + (e - s) = e from by omega]
  simp [rebuildResult, h1, h2]

/-- Witness for C7: a two-line file whose first line is the marker line
itself and whose second line closes the block. -/
theorem rebuild_splice_witness :
    rebuildResult [marker, [closeBrace]] = some [newSection] := by
  have h := rebuild_splice [marker, [closeBrace]] 0 1
    (by decide)
    (by decide)
    (fun j hj => absurd hj (Nat.not_lt_zero j))
    (by decide)
    (by decide)
    (by decide)
    (fun j hj1 hj2 => False.elim (by omega))
  simpa using h

end QuickFindr
